import Mathlib

/-
Verification of the securepass library (src/lib.rs): password generation,
balancing and strength evaluation.

Modelling conventions:
- Rust strings are modelled as List Char; the development covers the ASCII
  fragment (all built-in charsets are ASCII, so byte length and char count
  agree, and Rust is_lowercase or is_uppercase agree with the Lean ASCII
  predicates on the strings the library manipulates).
- The thread-local random generator is modelled as an explicit stream
  sigma : Nat -> Nat together with a cursor k that advances by one at each
  draw; gen_range(0..n) returns the stream value reduced mod n and fails
  (models a Rust panic) when the range is empty.
- Fallible or panicking computations return Option; the balancing loop of
  balance_password, which in Rust has no bound, takes an explicit fuel and
  returns none when the fuel runs out, so a result of some means the Rust
  loop returns after at most fuel iterations.
- The f64 entropy is modelled by the exact real number
  length * Real.logb 2 r.  The only divergence: for a password with no
  recognized character class Rust computes log2(0) = -inf while
  Real.logb 2 0 = 0; both values are below every threshold used by
  check_password_strength, so every comparison made by the library agrees.
- check_has_common_words reads the bundled dictionary.txt, which is not part
  of the sources; the loaded word list is therefore passed as an explicit
  parameter dict, and the functions that depend on it take dict as argument.
- For every real-valued definition there is an executable twin (suffix B)
  whose threshold comparisons are exact integer power comparisons; the
  theorems check_password_strength_eqB, balance_password_eqB and
  generate_password_eqB prove the twins equal to the real-valued versions,
  which makes concrete runs decidable.
-/

deriving instance DecidableEq for Except

/-- Specification record of a password, from src/lib.rs (PasswordSpecification). -/
structure PasswordSpecification where
  has_lowercase : Bool
  has_uppercase : Bool
  has_special : Bool
  has_number : Bool

/-- Strength verdict, from src/lib.rs (PasswordStrength). -/
inductive PasswordStrength where
  | Weak
  | Medium
  | Strong
deriving DecidableEq

/-- Ordering Weak < Medium < Strong, as a numeric rank. -/
def PasswordStrength.rank : PasswordStrength → Nat
  | PasswordStrength.Weak => 0
  | PasswordStrength.Medium => 1
  | PasswordStrength.Strong => 2

/-- Options for password generation, from src/lib.rs (PasswordOptions). -/
structure PasswordOptions where
  length : Nat
  include_special_chars : Bool
  include_uppercase : Bool
  include_numbers : Bool
  with_balancing : Bool
  phrase : Option (List Char)

def UPPERCASE_CHARSET : List Char := "ABCDEFGHIJKLMNOPQRSTUVWXYZ".toList

def LOWERCASE_CHARSET : List Char := "abcdefghijklmnopqrstuvwxyz".toList

def NUMBERS : List Char := "0123456789".toList

def SPECIAL_CHARSET : List Char := "!@#$%^&*?()\x7b\x7d[]<>-_=+".toList

/-- Default options, from impl Default for PasswordOptions. -/
def PasswordOptions.default : PasswordOptions :=
  { length := 13
    include_special_chars := true
    include_uppercase := true
    include_numbers := true
    with_balancing := true
    phrase := none }

/-- The random stream backing thread_rng: an arbitrary infinite sequence of draws. -/
abbrev RngStream := Nat → Nat

/-- Models rng.gen_range(0..n) at cursor k: returns a value below n and the
advanced cursor; an empty range makes Rust panic, modelled as none. -/
def genRange (σ : RngStream) (k n : Nat) : Option (Nat × Nat) :=
  if n = 0 then none else some (σ k % n, k + 1)

/-- remove_whitespace from src/lib.rs: split_whitespace plus collect drops
exactly the whitespace characters. -/
def remove_whitespace (input : List Char) : List Char :=
  input.filter (fun c => !c.isWhitespace)

/-- generate_charset from src/lib.rs. -/
def PasswordOptions.generate_charset (opts : PasswordOptions) : List Char :=
  match opts.phrase with
  | some existed_phrase => remove_whitespace existed_phrase
  | none =>
    LOWERCASE_CHARSET
      ++ (if opts.include_uppercase then UPPERCASE_CHARSET else [])
      ++ (if opts.include_numbers then NUMBERS else [])
      ++ (if opts.include_special_chars then SPECIAL_CHARSET else [])

/-- check_password_specification from src/lib.rs. -/
def check_password_specification (password : List Char) : PasswordSpecification :=
  { has_lowercase := password.any (fun c => c.isLower)
    has_uppercase := password.any (fun c => c.isUpper)
    has_special := password.any (fun c => SPECIAL_CHARSET.contains c)
    has_number := password.any (fun c => c.isDigit) }

/-- Whether word occurs at the head of the list, used to model str contains. -/
def startsWithL : List Char → List Char → Bool
  | _, [] => true
  | [], _ :: _ => false
  | a :: s, b :: t => a == b && startsWithL s t

/-- Models Rust str contains: word occurs as a contiguous substring. -/
def containsSub : List Char → List Char → Bool
  | [], w => w.isEmpty
  | a :: s, w => startsWithL (a :: s) w || containsSub s w

/-- check_has_common_words from src/lib.rs.  The function scans the word list
loaded from dictionary.txt; that file is not part of the sources, so the
loaded list is the parameter dict (spec: the Dictionary Provider supplies an
ordered sequence of words, and membership is a contiguous substring scan). -/
def check_has_common_words (dict : List (List Char)) (password : List Char) : Bool :=
  dict.any (fun word => containsSub password word)

/-- generate_random_password from src/lib.rs: length independent draws from
the charset.  Each draw samples an index below charset.length and takes the
character there; an empty charset makes the index sampling panic (none). -/
def generate_random_password (σ : RngStream) (charset : List Char) :
    Nat → Nat → Option (List Char × Nat)
  | 0, k => some ([], k)
  | n + 1, k =>
    match genRange σ k charset.length with
    | none => none
    | some (index, k1) =>
      match charset.get? index with
      | none => none
      | some c =>
        match generate_random_password σ charset n k1 with
        | none => none
        | some (rest, k2) => some (c :: rest, k2)

/-- replace_char from src/lib.rs: replace a random position of the password
with a random character of the given set. -/
def replace_char (σ : RngStream) (k : Nat) (password : List Char) (set : List Char) :
    Option (List Char × Nat) :=
  match genRange σ k password.length with
  | none => none
  | some (index, k1) =>
    match genRange σ k1 set.length with
    | none => none
    | some (j, k2) =>
      match set.get? j with
      | none => none
      | some char_to_add => some (password.set index char_to_add, k2)

/-- calculate_entropy from src/lib.rs: length times log2 of the summed sizes
of the character classes present in the password (f64 modelled by the reals). -/
noncomputable def calculate_entropy (password : List Char) : ℝ :=
  let l : ℝ := password.length
  let password_specification := check_password_specification password
  let r : ℝ :=
    (if password_specification.has_lowercase then (LOWERCASE_CHARSET.length : ℝ) else 0)
    + (if password_specification.has_uppercase then (UPPERCASE_CHARSET.length : ℝ) else 0)
    + (if password_specification.has_number then (NUMBERS.length : ℝ) else 0)
    + (if password_specification.has_special then (SPECIAL_CHARSET.length : ℝ) else 0)
  l * Real.logb 2 r

/-- check_password_strength from src/lib.rs, over the real-valued entropy. -/
noncomputable def check_password_strength (dict : List (List Char)) (password : List Char) :
    Except String PasswordStrength :=
  if password.isEmpty then
    Except.error "Password must contain min 1 char"
  else
    let entropy := calculate_entropy password
    if entropy < 40 then Except.ok PasswordStrength.Weak
    else
      let score : Int :=
        if 40 ≤ entropy ∧ entropy ≤ 59.9 then 0
        else if 60 ≤ entropy ∧ entropy ≤ 81.9 then 1
        else if 82 ≤ entropy ∧ entropy ≤ 99.9 then 2
        else 3
      let has_common_words := check_has_common_words dict password
      let score2 : Int :=
        if has_common_words = true ∧ entropy < 85 then score - 1 else score
      if 2 ≤ score2 ∧ score2 ≤ 3 then Except.ok PasswordStrength.Strong
      else if score2 = 1 then Except.ok PasswordStrength.Medium
      else Except.ok PasswordStrength.Weak

/-- The loop of balance_password from src/lib.rs, with explicit fuel: check
strength and specification, stop when the password is Strong with all four
classes present, otherwise replace one random position per class set and
retry.  unwrap on an empty password and the random draws model panics. -/
noncomputable def balance_password_loop (σ : RngStream) (dict : List (List Char)) :
    Nat → List Char → Nat → Option (List Char × Nat)
  | 0, _, _ => none
  | fuel + 1, password, k =>
    match check_password_strength dict password with
    | Except.error _ => none
    | Except.ok password_str =>
      let password_specification := check_password_specification password
      let done : Bool :=
        match password_str with
        | PasswordStrength.Strong =>
          password_specification.has_lowercase && password_specification.has_number
            && password_specification.has_special && password_specification.has_uppercase
        | _ => false
      if done then some (password, k)
      else
        match replace_char σ k password LOWERCASE_CHARSET with
        | none => none
        | some (p1, k1) =>
          match replace_char σ k1 p1 UPPERCASE_CHARSET with
          | none => none
          | some (p2, k2) =>
            match replace_char σ k2 p2 NUMBERS with
            | none => none
            | some (p3, k3) =>
              match replace_char σ k3 p3 SPECIAL_CHARSET with
              | none => none
              | some (p4, k4) => balance_password_loop σ dict fuel p4 k4

/-- balance_password from src/lib.rs: pad a short password to the default
length with random characters from the default charset, then run the loop. -/
noncomputable def balance_password (σ : RngStream) (dict : List (List Char))
    (fuel : Nat) (password : List Char) (k : Nat) : Option (List Char × Nat) :=
  let optimal_password_length := PasswordOptions.default.length
  if password.length < optimal_password_length then
    let charset := PasswordOptions.default.generate_charset
    let number_chars_to_add := optimal_password_length - password.length
    if 0 < number_chars_to_add then
      match generate_random_password σ charset number_chars_to_add k with
      | none => none
      | some (str_to_add, k1) => balance_password_loop σ dict fuel (password ++ str_to_add) k1
    else
      balance_password_loop σ dict fuel password k
  else
    balance_password_loop σ dict fuel password k

/-- generate_password from src/lib.rs. -/
noncomputable def PasswordOptions.generate_password (opts : PasswordOptions) (σ : RngStream)
    (dict : List (List Char)) (fuel k : Nat) : Option (Except String (List Char) × Nat) :=
  if opts.length < 10 then
    some (Except.error "Password length less than 10 is considered weak.", k)
  else
    match generate_random_password σ opts.generate_charset opts.length k with
    | none => none
    | some (password, k1) =>
      if opts.phrase.isNone && opts.with_balancing then
        match balance_password σ dict fuel password k1 with
        | none => none
        | some (balanced, k2) => some (Except.ok balanced, k2)
      else
        some (Except.ok password, k1)

/-- The summed class sizes used by calculate_entropy, as a natural number. -/
def effectiveAlphabet (password : List Char) : Nat :=
  let password_specification := check_password_specification password
  (if password_specification.has_lowercase then LOWERCASE_CHARSET.length else 0)
  + (if password_specification.has_uppercase then UPPERCASE_CHARSET.length else 0)
  + (if password_specification.has_number then NUMBERS.length else 0)
  + (if password_specification.has_special then SPECIAL_CHARSET.length else 0)

/-- Integer encoding of the entropy of a password: since the entropy is
length * log2 (effectiveAlphabet), comparing it against a threshold t with
one decimal digit is comparing entPow against 2 ^ (10 * t). -/
def entPow (password : List Char) : Nat :=
  effectiveAlphabet password ^ (10 * password.length)

/-- Executable twin of check_password_strength: each f64 threshold comparison
entropy with t is replaced by the exact equivalent entPow with 2 ^ (10 t). -/
def check_password_strengthB (dict : List (List Char)) (password : List Char) :
    Except String PasswordStrength :=
  if password.isEmpty then
    Except.error "Password must contain min 1 char"
  else
    let q := entPow password
    if q < 2 ^ 400 then Except.ok PasswordStrength.Weak
    else
      let score : Int :=
        if 2 ^ 400 ≤ q ∧ q ≤ 2 ^ 599 then 0
        else if 2 ^ 600 ≤ q ∧ q ≤ 2 ^ 819 then 1
        else if 2 ^ 820 ≤ q ∧ q ≤ 2 ^ 999 then 2
        else 3
      let has_common_words := check_has_common_words dict password
      let score2 : Int :=
        if has_common_words = true ∧ q < 2 ^ 850 then score - 1 else score
      if 2 ≤ score2 ∧ score2 ≤ 3 then Except.ok PasswordStrength.Strong
      else if score2 = 1 then Except.ok PasswordStrength.Medium
      else Except.ok PasswordStrength.Weak

/-- Executable twin of balance_password_loop. -/
def balance_password_loopB (σ : RngStream) (dict : List (List Char)) :
    Nat → List Char → Nat → Option (List Char × Nat)
  | 0, _, _ => none
  | fuel + 1, password, k =>
    match check_password_strengthB dict password with
    | Except.error _ => none
    | Except.ok password_str =>
      let password_specification := check_password_specification password
      let done : Bool :=
        match password_str with
        | PasswordStrength.Strong =>
          password_specification.has_lowercase && password_specification.has_number
            && password_specification.has_special && password_specification.has_uppercase
        | _ => false
      if done then some (password, k)
      else
        match replace_char σ k password LOWERCASE_CHARSET with
        | none => none
        | some (p1, k1) =>
          match replace_char σ k1 p1 UPPERCASE_CHARSET with
          | none => none
          | some (p2, k2) =>
            match replace_char σ k2 p2 NUMBERS with
            | none => none
            | some (p3, k3) =>
              match replace_char σ k3 p3 SPECIAL_CHARSET with
              | none => none
              | some (p4, k4) => balance_password_loopB σ dict fuel p4 k4

/-- Executable twin of balance_password. -/
def balance_passwordB (σ : RngStream) (dict : List (List Char))
    (fuel : Nat) (password : List Char) (k : Nat) : Option (List Char × Nat) :=
  let optimal_password_length := PasswordOptions.default.length
  if password.length < optimal_password_length then
    let charset := PasswordOptions.default.generate_charset
    let number_chars_to_add := optimal_password_length - password.length
    if 0 < number_chars_to_add then
      match generate_random_password σ charset number_chars_to_add k with
      | none => none
      | some (str_to_add, k1) => balance_password_loopB σ dict fuel (password ++ str_to_add) k1
    else
      balance_password_loopB σ dict fuel password k
  else
    balance_password_loopB σ dict fuel password k

/-- Executable twin of generate_password. -/
def generate_passwordB (opts : PasswordOptions) (σ : RngStream)
    (dict : List (List Char)) (fuel k : Nat) : Option (Except String (List Char) × Nat) :=
  if opts.length < 10 then
    some (Except.error "Password length less than 10 is considered weak.", k)
  else
    match generate_random_password σ opts.generate_charset opts.length k with
    | none => none
    | some (password, k1) =>
      if opts.phrase.isNone && opts.with_balancing then
        match balance_passwordB σ dict fuel password k1 with
        | none => none
        | some (balanced, k2) => some (Except.ok balanced, k2)
      else
        some (Except.ok password, k1)

/-- The union of the four built-in class charsets (equal to the default charset). -/
def fullClassChars : List Char :=
  LOWERCASE_CHARSET ++ UPPERCASE_CHARSET ++ NUMBERS ++ SPECIAL_CHARSET

/-- Adversarial random stream: every draw is 0. -/
def sigmaZero : RngStream := fun _ => 0

/-- Random stream used for the concrete witness runs: first draws pick a
lowercase, an uppercase, a digit and a special character, then zeros. -/
def sigmaWit : RngStream := fun k => List.getD [0, 26, 52, 62] k 0

/-- Random stream for the witness run of a config without special characters:
13 initial draws, then one balancing pass placing the four classes at
positions 0, 1, 2, 3. -/
def sigmaNoSpec : RngStream :=
  fun k => List.getD [0, 26, 52, 0, 0, 0, 0, 0, 0, 0, 0, 0, 0, 0, 0, 1, 0, 2, 0, 3, 0] k 0

/-- The 13 character password produced by the witness runs. -/
def pwWit : List Char := 'a' :: 'A' :: '0' :: '!' :: List.replicate 9 'a'

/-- A 13 character candidate consisting only of the letter a. -/
def pwAllA : List Char := List.replicate 13 'a'

/-- The fixed point of the balancing pass under sigmaZero. -/
def pwBang : List Char := '!' :: List.replicate 12 'a'

/-- Config requesting length 10 with all classes and balancing on. -/
def cfgLen10 : PasswordOptions :=
  { length := 10
    include_special_chars := true
    include_uppercase := true
    include_numbers := true
    with_balancing := true
    phrase := none }

/-- Config with special characters disabled and balancing on. -/
def cfgNoSpec : PasswordOptions :=
  { length := 13
    include_special_chars := false
    include_uppercase := true
    include_numbers := true
    with_balancing := true
    phrase := none }

/-- Config requesting a too short password. -/
def cfgShort : PasswordOptions :=
  { length := 5
    include_special_chars := true
    include_uppercase := true
    include_numbers := true
    with_balancing := true
    phrase := none }

/-- Config with the one character seed phrase a and length 12. -/
def cfgPhraseA (u n s b : Bool) : PasswordOptions :=
  { length := 12
    include_special_chars := s
    include_uppercase := u
    include_numbers := n
    with_balancing := b
    phrase := some ['a'] }

/-- Config whose phrase is a single space: the charset is empty after
whitespace removal. -/
def cfgWhitespace : PasswordOptions :=
  { length := 13
    include_special_chars := true
    include_uppercase := true
    include_numbers := true
    with_balancing := true
    phrase := some [' '] }


/-- The verdict computed by check_password_strengthB as a function of the
entropy encoding q = entPow and the dictionary flag, for a nonempty password. -/
def verdictOf (q : Nat) (cw : Bool) : PasswordStrength :=
  if q < 2 ^ 400 then PasswordStrength.Weak
  else
    let score : Int :=
      if 2 ^ 400 ≤ q ∧ q ≤ 2 ^ 599 then 0
      else if 2 ^ 600 ≤ q ∧ q ≤ 2 ^ 819 then 1
      else if 2 ^ 820 ≤ q ∧ q ≤ 2 ^ 999 then 2
      else 3
    let score2 : Int := if cw = true ∧ q < 2 ^ 850 then score - 1 else score
    if 2 ≤ score2 ∧ score2 ≤ 3 then PasswordStrength.Strong
    else if score2 = 1 then PasswordStrength.Medium
    else PasswordStrength.Weak


/-- Entropy formula written from the spec words: length times log2 of the
effective alphabet size, where the effective alphabet size sums the class set
sizes 26, 26, 10 and 21 for exactly the classes present in the password. -/
noncomputable def calculate_entropy_spec (password : List Char) : ℝ :=
  (password.length : ℝ) * Real.logb 2
    ((if password.any (fun c => c.isLower) then (26:ℝ) else 0)
      + (if password.any (fun c => c.isUpper) then (26:ℝ) else 0)
      + (if password.any (fun c => c.isDigit) then (10:ℝ) else 0)
      + (if password.any (fun c => SPECIAL_CHARSET.contains c) then (21:ℝ) else 0))

set_option exponentiation.threshold 1100

theorem calculate_entropy_eq (password : List Char) :
    calculate_entropy password
      = (password.length : ℝ) * Real.logb 2 ((effectiveAlphabet password : ℕ) : ℝ) := by
  simp only [calculate_entropy, effectiveAlphabet]
  congr 1
  split_ifs <;> push_cast <;> ring_nf

theorem entropy_lt_iff (password : List Char) (hne : password ≠ []) (t10 : ℕ) (ht : 0 < t10) :
    (calculate_entropy password < (t10 : ℝ) / 10) ↔ entPow password < 2 ^ t10 := by
  rw [calculate_entropy_eq]
  simp only [entPow]
  have hl : 0 < password.length := List.length_pos.mpr hne
  rcases Nat.eq_zero_or_pos (effectiveAlphabet password) with hr | hr
  · rw [hr]
    have hz : (0:ℕ) ^ (10 * password.length) = 0 := Nat.zero_pow (by omega)
    rw [hz]
    have h1 : (0:ℝ) < (t10:ℝ)/10 := by positivity
    have h2 : 0 < 2 ^ t10 := Nat.pos_pow_of_pos t10 (by norm_num)
    simp [Real.logb_zero, h1, h2]
  · have h2 : (1:ℝ) < 2 := one_lt_two
    have hx : (0:ℝ) < ((effectiveAlphabet password : ℕ) : ℝ) ^ (10 * password.length) := by
      have : (0:ℝ) < ((effectiveAlphabet password : ℕ) : ℝ) := by exact_mod_cast hr
      positivity
    rw [lt_div_iff₀ (by norm_num : (0:ℝ) < 10)]
    have key : ((password.length : ℝ) * Real.logb 2 ((effectiveAlphabet password : ℕ) : ℝ)) * 10
        = Real.logb 2 (((effectiveAlphabet password : ℕ) : ℝ) ^ (10 * password.length)) := by
      rw [Real.logb_pow]
      push_cast
      ring
    rw [key, Real.logb_lt_iff_lt_rpow h2 hx, Real.rpow_natCast]
    constructor
    · intro h
      exact_mod_cast h
    · intro h
      exact_mod_cast h

theorem entropy_le_iff (password : List Char) (hne : password ≠ []) (t10 : ℕ) (ht : 0 < t10) :
    (calculate_entropy password ≤ (t10 : ℝ) / 10) ↔ entPow password ≤ 2 ^ t10 := by
  rw [calculate_entropy_eq]
  simp only [entPow]
  have hl : 0 < password.length := List.length_pos.mpr hne
  rcases Nat.eq_zero_or_pos (effectiveAlphabet password) with hr | hr
  · rw [hr]
    have hz : (0:ℕ) ^ (10 * password.length) = 0 := Nat.zero_pow (by omega)
    rw [hz]
    have h1 : (0:ℝ) ≤ (t10:ℝ)/10 := by positivity
    simp [Real.logb_zero, h1]
  · have h2 : (1:ℝ) < 2 := one_lt_two
    have hx : (0:ℝ) < ((effectiveAlphabet password : ℕ) : ℝ) ^ (10 * password.length) := by
      have : (0:ℝ) < ((effectiveAlphabet password : ℕ) : ℝ) := by exact_mod_cast hr
      positivity
    rw [le_div_iff₀ (by norm_num : (0:ℝ) < 10)]
    have key : ((password.length : ℝ) * Real.logb 2 ((effectiveAlphabet password : ℕ) : ℝ)) * 10
        = Real.logb 2 (((effectiveAlphabet password : ℕ) : ℝ) ^ (10 * password.length)) := by
      rw [Real.logb_pow]
      push_cast
      ring
    rw [key, Real.logb_le_iff_le_rpow h2 hx, Real.rpow_natCast]
    constructor
    · intro h
      exact_mod_cast h
    · intro h
      exact_mod_cast h

theorem check_password_strength_eqB (dict : List (List Char)) (password : List Char) :
    check_password_strength dict password = check_password_strengthB dict password := by
  by_cases hne : password = []
  · subst hne
    rfl
  · have hE : password.isEmpty = false := by
      simp [List.isEmpty_iff, hne]
    have i40 : (calculate_entropy password < 40) ↔ (entPow password < 2 ^ 400) := by
      have h := entropy_lt_iff password hne 400 (by norm_num)
      have e : ((400:ℕ):ℝ)/10 = (40:ℝ) := by norm_num
      rw [e] at h
      exact h
    have i40le : ((40:ℝ) ≤ calculate_entropy password) ↔ (2 ^ 400 ≤ entPow password) := by
      simp only [← not_lt]
      exact not_congr i40
    have i599 : (calculate_entropy password ≤ 59.9) ↔ (entPow password ≤ 2 ^ 599) := by
      have h := entropy_le_iff password hne 599 (by norm_num)
      have e : ((599:ℕ):ℝ)/10 = (59.9:ℝ) := by norm_num
      rw [e] at h
      exact h
    have i60 : ((60:ℝ) ≤ calculate_entropy password) ↔ (2 ^ 600 ≤ entPow password) := by
      have h := entropy_lt_iff password hne 600 (by norm_num)
      have e : ((600:ℕ):ℝ)/10 = (60:ℝ) := by norm_num
      rw [e] at h
      simp only [← not_lt]
      exact not_congr h
    have i819 : (calculate_entropy password ≤ 81.9) ↔ (entPow password ≤ 2 ^ 819) := by
      have h := entropy_le_iff password hne 819 (by norm_num)
      have e : ((819:ℕ):ℝ)/10 = (81.9:ℝ) := by norm_num
      rw [e] at h
      exact h
    have i82 : ((82:ℝ) ≤ calculate_entropy password) ↔ (2 ^ 820 ≤ entPow password) := by
      have h := entropy_lt_iff password hne 820 (by norm_num)
      have e : ((820:ℕ):ℝ)/10 = (82:ℝ) := by norm_num
      rw [e] at h
      simp only [← not_lt]
      exact not_congr h
    have i999 : (calculate_entropy password ≤ 99.9) ↔ (entPow password ≤ 2 ^ 999) := by
      have h := entropy_le_iff password hne 999 (by norm_num)
      have e : ((999:ℕ):ℝ)/10 = (99.9:ℝ) := by norm_num
      rw [e] at h
      exact h
    have i850 : (calculate_entropy password < 85) ↔ (entPow password < 2 ^ 850) := by
      have h := entropy_lt_iff password hne 850 (by norm_num)
      have e : ((850:ℕ):ℝ)/10 = (85:ℝ) := by norm_num
      rw [e] at h
      exact h
    simp only [check_password_strength, check_password_strengthB, hE, Bool.false_eq_true,
      if_false, i40, i40le, i599, i60, i819, i82, i999, i850]

theorem balance_password_loop_eqB (σ : RngStream) (dict : List (List Char)) :
    ∀ fuel password k,
      balance_password_loop σ dict fuel password k
        = balance_password_loopB σ dict fuel password k := by
  intro fuel
  induction fuel with
  | zero =>
    intro password k
    rfl
  | succ n ih =>
    intro password k
    simp only [balance_password_loop, balance_password_loopB, check_password_strength_eqB, ih]

theorem balance_password_eqB (σ : RngStream) (dict : List (List Char))
    (fuel : Nat) (password : List Char) (k : Nat) :
    balance_password σ dict fuel password k = balance_passwordB σ dict fuel password k := by
  simp only [balance_password, balance_passwordB, balance_password_loop_eqB]

theorem generate_password_eqB (opts : PasswordOptions) (σ : RngStream)
    (dict : List (List Char)) (fuel k : Nat) :
    opts.generate_password σ dict fuel k = generate_passwordB opts σ dict fuel k := by
  simp only [PasswordOptions.generate_password, generate_passwordB, balance_password_eqB]

theorem generate_random_password_length (σ : RngStream) (charset : List Char) :
    ∀ n k p k2, generate_random_password σ charset n k = some (p, k2) → p.length = n := by
  intro n
  induction n with
  | zero =>
    intro k p k2 h
    simp only [generate_random_password, Option.some.injEq, Prod.mk.injEq] at h
    rw [← h.1]
    rfl
  | succ m ih =>
    intro k p k2 h
    simp only [generate_random_password] at h
    split at h
    · exact absurd h (by simp)
    · split at h
      · exact absurd h (by simp)
      · split at h
        · exact absurd h (by simp)
        · rename_i c i k1 hget rest k3 hrest
          simp only [Option.some.injEq, Prod.mk.injEq] at h
          rw [← h.1]
          simp [ih _ _ _ hrest]

theorem replace_char_length (σ : RngStream) (k : Nat) (password set : List Char)
    (p : List Char) (k2 : Nat) :
    replace_char σ k password set = some (p, k2) → p.length = password.length := by
  intro h
  simp only [replace_char] at h
  split at h
  · exact absurd h (by simp)
  · split at h
    · exact absurd h (by simp)
    · split at h
      · exact absurd h (by simp)
      · simp only [Option.some.injEq, Prod.mk.injEq] at h
        rw [← h.1]
        simp [List.length_set]

theorem balance_password_loop_length (σ : RngStream) (dict : List (List Char)) :
    ∀ fuel password k p k2,
      balance_password_loop σ dict fuel password k = some (p, k2) →
        p.length = password.length := by
  intro fuel
  induction fuel with
  | zero =>
    intro password k p k2 h
    exact absurd h (by simp [balance_password_loop])
  | succ n ih =>
    intro password k p k2 h
    simp only [balance_password_loop] at h
    split at h
    · exact absurd h (by simp)
    · split at h
      · simp only [Option.some.injEq, Prod.mk.injEq] at h
        rw [← h.1]
      · split at h
        · exact absurd h (by simp)
        · split at h
          · exact absurd h (by simp)
          · split at h
            · exact absurd h (by simp)
            · split at h
              · exact absurd h (by simp)
              · rw [ih _ _ _ _ h]
                rename_i a1 a2 a3 a4 a5 a6 a7 a8 a9 a10 a11 a12 a13 a14 a15 a16
                rw [replace_char_length _ _ _ _ _ _ a16, replace_char_length _ _ _ _ _ _ a12,
                  replace_char_length _ _ _ _ _ _ a8, replace_char_length _ _ _ _ _ _ a4]

theorem balance_password_length (σ : RngStream) (dict : List (List Char))
    (fuel : Nat) (password : List Char) (k : Nat) (p : List Char) (k2 : Nat) :
    balance_password σ dict fuel password k = some (p, k2) →
      p.length = max password.length 13 := by
  intro h
  simp only [balance_password, PasswordOptions.default] at h
  split at h
  · split at h
    · split at h
      · exact absurd h (by simp)
      · rename_i hshort hpos a1 padding k1 hgen
        rw [balance_password_loop_length _ _ _ _ _ _ _ h]
        rw [List.length_append, generate_random_password_length _ _ _ _ _ _ hgen]
        omega
    · rename_i hshort hpos
      omega
  · rename_i hshort
    rw [balance_password_loop_length _ _ _ _ _ _ _ h]
    omega

theorem generate_password_length_general (opts : PasswordOptions) (σ : RngStream)
    (dict : List (List Char)) (fuel k : Nat) (p : List Char) (k2 : Nat) :
    opts.generate_password σ dict fuel k = some (Except.ok p, k2) →
      p.length
        = if opts.phrase = none ∧ opts.with_balancing = true then max opts.length 13
          else opts.length := by
  intro h
  simp only [PasswordOptions.generate_password] at h
  split at h
  · simp at h
  · split at h
    · exact absurd h (by simp)
    · rename_i hlen a1 pw k1 hgen
      split at h
      · rename_i hbal
        split at h
        · exact absurd h (by simp)
        · rename_i a2 balanced k3 hb
          simp only [Option.some.injEq, Prod.mk.injEq, Except.ok.injEq] at h
          have hcond : opts.phrase = none ∧ opts.with_balancing = true := by
            rw [Bool.and_eq_true, Option.isNone_iff_eq_none] at hbal
            exact hbal
          rw [if_pos hcond, ← h.1]
          rw [balance_password_length _ _ _ _ _ _ _ hb,
            generate_random_password_length _ _ _ _ _ _ hgen]
      · rename_i hbal
        simp only [Option.some.injEq, Prod.mk.injEq, Except.ok.injEq] at h
        have hcond : ¬(opts.phrase = none ∧ opts.with_balancing = true) := by
          rw [Bool.and_eq_true, Option.isNone_iff_eq_none] at hbal
          exact hbal
        rw [if_neg hcond, ← h.1]
        exact generate_random_password_length _ _ _ _ _ _ hgen

theorem generate_random_password_mem (σ : RngStream) (charset : List Char) :
    ∀ n k p k2, generate_random_password σ charset n k = some (p, k2) →
      ∀ c ∈ p, c ∈ charset := by
  intro n
  induction n with
  | zero =>
    intro k p k2 h
    simp only [generate_random_password, Option.some.injEq, Prod.mk.injEq] at h
    rw [← h.1]
    intro c hc
    exact absurd hc (by simp)
  | succ m ih =>
    intro k p k2 h
    simp only [generate_random_password] at h
    split at h
    · exact absurd h (by simp)
    · split at h
      · exact absurd h (by simp)
      · split at h
        · exact absurd h (by simp)
        · rename_i x1 index k1 heq1 x2 c0 hget x3 rest k3 hrest
          simp only [Option.some.injEq, Prod.mk.injEq] at h
          rw [← h.1]
          intro d hd
          rcases List.mem_cons.mp hd with hd | hd
          · rw [hd]
            exact List.get?_mem hget
          · exact ih _ _ _ hrest d hd

theorem replace_char_mem (σ : RngStream) (k : Nat) (password set : List Char)
    (p : List Char) (k2 : Nat) :
    replace_char σ k password set = some (p, k2) → ∀ c ∈ p, c ∈ password ∨ c ∈ set := by
  intro h
  simp only [replace_char] at h
  split at h
  · exact absurd h (by simp)
  · split at h
    · exact absurd h (by simp)
    · split at h
      · exact absurd h (by simp)
      · rename_i a1 index k1 h1 a2 j kk h2 char_to_add hget
        simp only [Option.some.injEq, Prod.mk.injEq] at h
        rw [← h.1]
        intro c hc
        rcases List.mem_or_eq_of_mem_set hc with hm | he
        · exact Or.inl hm
        · rw [he]
          exact Or.inr (List.get?_mem hget)

theorem mem_fullClassChars_of_class (c : Char)
    (h : c ∈ LOWERCASE_CHARSET ∨ c ∈ UPPERCASE_CHARSET ∨ c ∈ NUMBERS ∨ c ∈ SPECIAL_CHARSET) :
    c ∈ fullClassChars := by
  simp only [fullClassChars, List.mem_append]
  tauto

theorem balance_password_loop_mem (σ : RngStream) (dict : List (List Char)) :
    ∀ fuel password k p k2,
      balance_password_loop σ dict fuel password k = some (p, k2) →
        ∀ c ∈ p, c ∈ password ∨ c ∈ fullClassChars := by
  intro fuel
  induction fuel with
  | zero =>
    intro password k p k2 h
    exact absurd h (by simp [balance_password_loop])
  | succ n ih =>
    intro password k p k2 h
    simp only [balance_password_loop] at h
    split at h
    · exact absurd h (by simp)
    · split at h
      · simp only [Option.some.injEq, Prod.mk.injEq] at h
        rw [← h.1]
        intro c hc
        exact Or.inl hc
      · split at h
        · exact absurd h (by simp)
        · split at h
          · exact absurd h (by simp)
          · split at h
            · exact absurd h (by simp)
            · split at h
              · exact absurd h (by simp)
              · rename_i a1 p1 k1 h1 a2 p2 kk2 h2 a3 p3 k3 h3 a4 p4 k4 h4
                intro c hc
                rcases ih _ _ _ _ h c hc with hc4 | hfull
                · rcases replace_char_mem _ _ _ _ _ _ h4 c hc4 with hc3 | hs
                  · rcases replace_char_mem _ _ _ _ _ _ h3 c hc3 with hc2 | hs
                    · rcases replace_char_mem _ _ _ _ _ _ h2 c hc2 with hc1 | hs
                      · rcases replace_char_mem _ _ _ _ _ _ h1 c hc1 with hc0 | hs
                        · exact Or.inl hc0
                        · exact Or.inr (mem_fullClassChars_of_class c (Or.inl hs))
                      · exact Or.inr (mem_fullClassChars_of_class c (Or.inr (Or.inl hs)))
                    · exact Or.inr (mem_fullClassChars_of_class c (Or.inr (Or.inr (Or.inl hs))))
                  · exact Or.inr (mem_fullClassChars_of_class c (Or.inr (Or.inr (Or.inr hs))))
                · exact Or.inr hfull

theorem default_charset_eq : PasswordOptions.default.generate_charset = fullClassChars := by
  rfl

theorem balance_password_mem (σ : RngStream) (dict : List (List Char))
    (fuel : Nat) (password : List Char) (k : Nat) (p : List Char) (k2 : Nat) :
    balance_password σ dict fuel password k = some (p, k2) →
      ∀ c ∈ p, c ∈ password ∨ c ∈ fullClassChars := by
  intro h
  simp only [balance_password] at h
  split at h
  · split at h
    · split at h
      · exact absurd h (by simp)
      · rename_i hshort hpos a1 padding k1 hgen
        intro c hc
        rcases balance_password_loop_mem _ _ _ _ _ _ _ h c hc with hm | hfull
        · rcases List.mem_append.mp hm with hm | hm
          · exact Or.inl hm
          · have := generate_random_password_mem _ _ _ _ _ _ hgen c hm
            rw [default_charset_eq] at this
            exact Or.inr this
        · exact Or.inr hfull
    · intro c hc
      exact balance_password_loop_mem _ _ _ _ _ _ _ h c hc
  · intro c hc
    exact balance_password_loop_mem _ _ _ _ _ _ _ h c hc

theorem generate_password_mem (opts : PasswordOptions) (σ : RngStream)
    (dict : List (List Char)) (fuel k : Nat) (p : List Char) (k2 : Nat) :
    opts.generate_password σ dict fuel k = some (Except.ok p, k2) →
      ∀ c ∈ p, c ∈ opts.generate_charset ∨ c ∈ fullClassChars := by
  intro h
  simp only [PasswordOptions.generate_password] at h
  split at h
  · simp at h
  · split at h
    · exact absurd h (by simp)
    · rename_i hlen a1 pw k1 hgen
      split at h
      · split at h
        · exact absurd h (by simp)
        · rename_i hbal a2 balanced k3 hb
          simp only [Option.some.injEq, Prod.mk.injEq, Except.ok.injEq] at h
          rw [← h.1]
          intro c hc
          rcases balance_password_mem _ _ _ _ _ _ _ hb c hc with hm | hfull
          · exact Or.inl (generate_random_password_mem _ _ _ _ _ _ hgen c hm)
          · exact Or.inr hfull
      · simp only [Option.some.injEq, Prod.mk.injEq, Except.ok.injEq] at h
        rw [← h.1]
        intro c hc
        exact Or.inl (generate_random_password_mem _ _ _ _ _ _ hgen c hc)

theorem balance_password_loop_exit (σ : RngStream) (dict : List (List Char)) :
    ∀ fuel password k p k2,
      balance_password_loop σ dict fuel password k = some (p, k2) →
        check_password_strength dict p = Except.ok PasswordStrength.Strong
          ∧ (check_password_specification p).has_lowercase = true
          ∧ (check_password_specification p).has_number = true
          ∧ (check_password_specification p).has_special = true
          ∧ (check_password_specification p).has_uppercase = true := by
  intro fuel
  induction fuel with
  | zero =>
    intro password k p k2 h
    exact absurd h (by simp [balance_password_loop])
  | succ n ih =>
    intro password k p k2 h
    simp only [balance_password_loop] at h
    split at h
    · exact absurd h (by simp)
    · rename_i xc password_str hcheck
      split at h
      · rename_i hdone
        simp only [Option.some.injEq, Prod.mk.injEq] at h
        rw [← h.1]
        cases password_str with
        | Weak => exact absurd hdone (by simp)
        | Medium => exact absurd hdone (by simp)
        | Strong =>
          simp only [Bool.and_eq_true] at hdone
          exact ⟨hcheck, hdone.1.1.1, hdone.1.1.2, hdone.1.2, hdone.2⟩
      · split at h
        · exact absurd h (by simp)
        · split at h
          · exact absurd h (by simp)
          · split at h
            · exact absurd h (by simp)
            · split at h
              · exact absurd h (by simp)
              · exact ih _ _ _ _ h

theorem checkB_eq_verdictOf (dict : List (List Char)) (p : List Char) (hne : p ≠ []) :
    check_password_strengthB dict p
      = Except.ok (verdictOf (entPow p) (check_has_common_words dict p)) := by
  have hE : p.isEmpty = false := by simp [List.isEmpty_iff, hne]
  simp only [check_password_strengthB, verdictOf, hE, Bool.false_eq_true, if_false]
  split_ifs <;> rfl

theorem check_password_strength_ok (dict : List (List Char)) (p : List Char) (hne : p ≠ []) :
    ∃ v, check_password_strength dict p = Except.ok v := by
  rw [check_password_strength_eqB, checkB_eq_verdictOf dict p hne]
  exact ⟨_, rfl⟩

theorem isUpper_eq_false_of_isLower (c : Char) (h : c.isLower = true) : c.isUpper = false := by
  simp only [Char.isLower, Char.isUpper, Bool.and_eq_true, decide_eq_true_eq,
    UInt32.le_def, BitVec.le_def] at h ⊢
  rw [Bool.and_eq_false_iff]
  right
  simp only [decide_eq_false_iff_not, UInt32.le_def, BitVec.le_def]
  have e1 : (UInt32.toBitVec 97).toNat = 97 := rfl
  have e2 : (UInt32.toBitVec 90).toNat = 90 := rfl
  omega

theorem isDigit_eq_false_of_isLower (c : Char) (h : c.isLower = true) : c.isDigit = false := by
  simp only [Char.isLower, Char.isDigit, Bool.and_eq_true, decide_eq_true_eq,
    UInt32.le_def, BitVec.le_def] at h ⊢
  rw [Bool.and_eq_false_iff]
  right
  simp only [decide_eq_false_iff_not, UInt32.le_def, BitVec.le_def]
  have e1 : (UInt32.toBitVec 97).toNat = 97 := rfl
  have e2 : (UInt32.toBitVec 57).toNat = 57 := rfl
  omega

theorem special_all_not_lower : ∀ c ∈ SPECIAL_CHARSET, c.isLower = false := by
  decide

theorem contains_special_eq_false_of_isLower (c : Char) (h : c.isLower = true) :
    SPECIAL_CHARSET.contains c = false := by
  rw [Bool.eq_false_iff]
  intro hc
  have hmem : c ∈ SPECIAL_CHARSET := by
    simpa [List.contains, List.elem_iff] using hc
  rw [special_all_not_lower c hmem] at h
  exact absurd h (by simp)

theorem rank_le_two (v : PasswordStrength) : v.rank ≤ 2 := by
  cases v <;> simp [PasswordStrength.rank]

theorem verdictOf_26_len12 : ∀ cw, verdictOf (26 ^ (10 * 12)) cw = PasswordStrength.Weak := by
  decide

theorem verdictOf_26_len13 : ∀ cw, (verdictOf (26 ^ (10 * 13)) cw).rank ≤ 1 := by
  decide

theorem verdictOf_83_len13 : ∀ cw, 1 ≤ (verdictOf (83 ^ (10 * 13)) cw).rank := by
  decide

theorem verdictOf_83_large (q : ℕ) (hq : 83 ^ 140 ≤ q) (cw : Bool) :
    verdictOf q cw = PasswordStrength.Strong := by
  have h400 : ¬(q < 2 ^ 400) := not_lt.mpr (le_trans (by norm_num) hq)
  have h599 : ¬(q ≤ 2 ^ 599) := not_le.mpr (lt_of_lt_of_le (by norm_num) hq)
  have h819 : ¬(q ≤ 2 ^ 819) := not_le.mpr (lt_of_lt_of_le (by norm_num) hq)
  have h850 : ¬(q < 2 ^ 850) := not_lt.mpr (le_trans (by norm_num) hq)
  simp only [verdictOf]
  rw [if_neg h400, if_neg (fun hcon : 2 ^ 400 ≤ q ∧ q ≤ 2 ^ 599 => h599 hcon.2),
    if_neg (fun hcon : 2 ^ 600 ≤ q ∧ q ≤ 2 ^ 819 => h819 hcon.2),
    if_neg (fun hcon : cw = true ∧ q < 2 ^ 850 => h850 hcon.2)]
  have hs : (2:Int) ≤ (if 2 ^ 820 ≤ q ∧ q ≤ 2 ^ 999 then (2:Int) else 3)
      ∧ (if 2 ^ 820 ≤ q ∧ q ≤ 2 ^ 999 then (2:Int) else 3) ≤ 3 := by
    constructor <;> split <;> norm_num
  rw [if_pos hs]

theorem balance_password_exit (σ : RngStream) (dict : List (List Char))
    (fuel : Nat) (password : List Char) (k : Nat) (p : List Char) (k2 : Nat)
    (h : balance_password σ dict fuel password k = some (p, k2)) :
    check_password_strength dict p = Except.ok PasswordStrength.Strong
      ∧ (check_password_specification p).has_lowercase = true
      ∧ (check_password_specification p).has_number = true
      ∧ (check_password_specification p).has_special = true
      ∧ (check_password_specification p).has_uppercase = true := by
  simp only [balance_password] at h
  split at h
  · split at h
    · split at h
      · exact absurd h (by simp)
      · exact balance_password_loop_exit _ _ _ _ _ _ _ h
    · exact balance_password_loop_exit _ _ _ _ _ _ _ h
  · exact balance_password_loop_exit _ _ _ _ _ _ _ h

theorem generate_random_password_singleton (σ : RngStream) :
    ∀ n k, generate_random_password σ ['a'] n k = some (List.replicate n 'a', k + n) := by
  intro n
  induction n with
  | zero =>
    intro k
    rfl
  | succ m ih =>
    intro k
    simp only [generate_random_password, genRange, List.length_singleton, Nat.mod_one,
      List.replicate_succ, ih]
    simp
    omega

theorem loopB_step_pwBang (n k : Nat) :
    balance_password_loopB sigmaZero [] (n + 1) pwBang k
      = balance_password_loopB sigmaZero [] n pwBang (k + 8) := by
  rfl

theorem loopB_none_pwBang : ∀ n k, balance_password_loopB sigmaZero [] n pwBang k = none := by
  intro n
  induction n with
  | zero =>
    intro k
    rfl
  | succ m ih =>
    intro k
    rw [loopB_step_pwBang m k]
    exact ih (k + 8)

theorem balanceB_none_pwAllA (fuel k : Nat) :
    balance_passwordB sigmaZero [] fuel pwAllA k = none := by
  show balance_password_loopB sigmaZero [] fuel pwAllA k = none
  cases fuel with
  | zero => rfl
  | succ m =>
    have step : balance_password_loopB sigmaZero [] (m + 1) pwAllA k
        = balance_password_loopB sigmaZero [] m pwBang (k + 8) := rfl
    rw [step]
    exact loopB_none_pwBang m (k + 8)

/-- C1: the balancing loop of balance_password does not always terminate.
Under the random stream that always draws 0 and the 13 character candidate
aaaaaaaaaaaaa, every pass rewrites position 0 four times, ending with a
special character, so the candidate returns to the same state with the
uppercase class still missing; the loop exhausts every fuel bound and never
returns.  This contradicts the bounded termination the claim requires. -/
theorem balance_password_nonterminating (fuel k : Nat) :
    balance_password sigmaZero [] fuel pwAllA k = none := by
  rw [balance_password_eqB]
  exact balanceB_none_pwAllA fuel k

/-- C2 counterexample: with requested length 10 (all classes, balancing on)
there is a run of generate_password that returns Ok with a password of
length 13, not the requested 10: balance_password first pads every password
shorter than the default length 13. -/
theorem generate_password_length10_cex :
    cfgLen10.generate_password sigmaWit [] 1 0 = some (Except.ok pwWit, 13)
      ∧ pwWit.length ≠ cfgLen10.length := by
  constructor
  · rw [generate_password_eqB]
    decide
  · decide

/-- C2 (amended): a password returned by generate_password has exactly the
requested length when a phrase is given or balancing is off; with balancing
on and no phrase its length is the maximum of the requested length and the
default length 13 (requests of 10 to 12 are padded up to 13). -/
theorem generate_password_length_amended (opts : PasswordOptions) (σ : RngStream)
    (dict : List (List Char)) (fuel k : Nat) (p : List Char) (k2 : Nat)
    (h : opts.generate_password σ dict fuel k = some (Except.ok p, k2)) :
    p.length
      = if opts.phrase = none ∧ opts.with_balancing = true then max opts.length 13
        else opts.length :=
  generate_password_length_general opts σ dict fuel k p k2 h

/-- Witness for the amended C2 theorem at the concrete length 10 run. -/
theorem generate_password_length_amended_witness :
    pwWit.length
      = if cfgLen10.phrase = none ∧ cfgLen10.with_balancing = true then max cfgLen10.length 13
        else cfgLen10.length :=
  generate_password_length_amended cfgLen10 sigmaWit [] 1 0 pwWit 13
    (by rw [generate_password_eqB]; decide)

/-- C3 counterexample: with special characters disabled and balancing on,
generate_password can return a password containing the special character at
position 3, which is not in the configured charset: the balancer draws
replacement characters from all four built-in class sets regardless of the
enabled flags, and only stops once all four classes are present. -/
theorem generate_password_charset_cex :
    cfgNoSpec.generate_password sigmaNoSpec [] 2 0 = some (Except.ok pwWit, 21)
      ∧ '!' ∈ pwWit ∧ '!' ∉ cfgNoSpec.generate_charset := by
  refine ⟨by rw [generate_password_eqB]; decide, by decide, by decide⟩

/-- C3 (amended): every character of a password returned by generate_password
belongs to the configured charset or to one of the four built-in class
charsets; the balancer replaces positions with characters from all four
class sets whether or not the corresponding class is enabled. -/
theorem generate_password_chars_amended (opts : PasswordOptions) (σ : RngStream)
    (dict : List (List Char)) (fuel k : Nat) (p : List Char) (k2 : Nat)
    (h : opts.generate_password σ dict fuel k = some (Except.ok p, k2)) :
    ∀ c ∈ p, c ∈ opts.generate_charset ∨ c ∈ fullClassChars :=
  generate_password_mem opts σ dict fuel k p k2 h

/-- Witness for the amended C3 theorem at the concrete run without special
characters enabled. -/
theorem generate_password_chars_amended_witness :
    '!' ∈ cfgNoSpec.generate_charset ∨ '!' ∈ fullClassChars :=
  generate_password_chars_amended cfgNoSpec sigmaNoSpec [] 2 0 pwWit 21
    (by rw [generate_password_eqB]; decide) '!' (by decide)

/-- C4: for a configuration with every class enabled, no phrase, balancing on
and a valid length, every password returned by generate_password has all four
composition flags set and check_password_strength on it yields Strong: the
balancing loop only exits when the strength is Strong and all four classes
are present. -/
theorem generate_password_balanced_strong (opts : PasswordOptions) (σ : RngStream)
    (dict : List (List Char)) (fuel k : Nat) (p : List Char) (k2 : Nat)
    (_hu : opts.include_uppercase = true) (_hn : opts.include_numbers = true)
    (_hs : opts.include_special_chars = true) (hph : opts.phrase = none)
    (hb : opts.with_balancing = true) (hlen : 10 ≤ opts.length)
    (h : opts.generate_password σ dict fuel k = some (Except.ok p, k2)) :
    ((check_password_specification p).has_lowercase = true
      ∧ (check_password_specification p).has_uppercase = true
      ∧ (check_password_specification p).has_number = true
      ∧ (check_password_specification p).has_special = true)
      ∧ check_password_strength dict p = Except.ok PasswordStrength.Strong := by
  simp only [PasswordOptions.generate_password] at h
  rw [if_neg (by omega)] at h
  split at h
  · exact absurd h (by simp)
  · rename_i a1 pw k1 hgen
    have hcond : (opts.phrase.isNone && opts.with_balancing) = true := by
      simp [hph, hb]
    rw [if_pos hcond] at h
    split at h
    · exact absurd h (by simp)
    · rename_i a2 balanced k3 hbal
      simp only [Option.some.injEq, Prod.mk.injEq, Except.ok.injEq] at h
      obtain ⟨hstr, hfl, hfn, hfs, hfu⟩ := balance_password_exit _ _ _ _ _ _ _ hbal
      rw [← h.1]
      exact ⟨⟨hfl, hfu, hfn, hfs⟩, hstr⟩

/-- Witness for C4 at the default configuration and a concrete stream whose
first pass already produces a balanced Strong password. -/
theorem generate_password_balanced_strong_witness :
    ((check_password_specification pwWit).has_lowercase = true
      ∧ (check_password_specification pwWit).has_uppercase = true
      ∧ (check_password_specification pwWit).has_number = true
      ∧ (check_password_specification pwWit).has_special = true)
      ∧ check_password_strength [] pwWit = Except.ok PasswordStrength.Strong :=
  generate_password_balanced_strong PasswordOptions.default sigmaWit [] 1 0 pwWit 13
    rfl rfl rfl rfl rfl (by norm_num [PasswordOptions.default])
    (by rw [generate_password_eqB]; decide)

/-- C5: a requested length below 10 makes generate_password return the
explicit too short error value, never a password string. -/
theorem generate_password_too_short (opts : PasswordOptions) (σ : RngStream)
    (dict : List (List Char)) (fuel k : Nat) (h : opts.length < 10) :
    opts.generate_password σ dict fuel k
      = some (Except.error "Password length less than 10 is considered weak.", k) := by
  simp only [PasswordOptions.generate_password]
  rw [if_pos h]

/-- Witness for C5 at the concrete length 5 configuration. -/
theorem generate_password_too_short_witness :
    cfgShort.generate_password sigmaZero [] 3 7
      = some (Except.error "Password length less than 10 is considered weak.", 7) :=
  generate_password_too_short cfgShort sigmaZero [] 3 7 (by decide)

/-- C6: check_password_strength fails exactly on the empty password, with the
explicit empty input error, and returns Ok with some verdict on every
nonempty password. -/
theorem check_password_strength_empty_iff (dict : List (List Char)) (p : List Char) :
    (p = [] → check_password_strength dict p = Except.error "Password must contain min 1 char")
      ∧ (p ≠ [] → ∃ v, check_password_strength dict p = Except.ok v) := by
  constructor
  · intro h
    subst h
    rfl
  · exact check_password_strength_ok dict p

/-- Witness for C6: the empty password errors and a one letter password gets
a verdict. -/
theorem check_password_strength_empty_iff_witness :
    check_password_strength [] [] = Except.error "Password must contain min 1 char"
      ∧ ∃ v, check_password_strength [] ['a'] = Except.ok v :=
  ⟨(check_password_strength_empty_iff [] []).1 rfl,
    (check_password_strength_empty_iff [] ['a']).2 (by decide)⟩

/-- C7: for every nonempty password, calculate_entropy equals the spec
formula: length times log2 of the sum of the class set sizes 26, 26, 10, 21
over the classes actually present in the password. -/
theorem calculate_entropy_correct (p : List Char) (_hne : p ≠ []) :
    calculate_entropy p = calculate_entropy_spec p := by
  have e1 : LOWERCASE_CHARSET.length = 26 := by decide
  have e2 : UPPERCASE_CHARSET.length = 26 := by decide
  have e3 : NUMBERS.length = 10 := by decide
  have e4 : SPECIAL_CHARSET.length = 21 := by decide
  simp only [calculate_entropy, calculate_entropy_spec, check_password_specification,
    e1, e2, e3, e4]
  push_cast
  ring_nf

/-- Witness for C7 at a concrete one letter password. -/
theorem calculate_entropy_correct_witness :
    calculate_entropy ['a'] = calculate_entropy_spec ['a'] :=
  calculate_entropy_correct ['a'] (by decide)

/-- C8: strength is monotone in class coverage: for every password of length
at least 12 containing a lowercase, an uppercase, a digit and a special
character, and every password of the same length containing only lowercase
characters, the verdict on the first is at least the verdict on the second
in the order Weak < Medium < Strong, for any loaded dictionary. -/
theorem check_strength_monotone_in_classes (dict : List (List Char)) (p4 p1 : List Char)
    (h12 : 12 ≤ p4.length) (hlen : p1.length = p4.length)
    (hexl : ∃ c ∈ p4, c.isLower = true) (hexu : ∃ c ∈ p4, c.isUpper = true)
    (hexn : ∃ c ∈ p4, c.isDigit = true) (hexs : ∃ c ∈ p4, c ∈ SPECIAL_CHARSET)
    (hall : ∀ c ∈ p1, c.isLower = true) :
    ∃ v4 v1, check_password_strength dict p4 = Except.ok v4
      ∧ check_password_strength dict p1 = Except.ok v1
      ∧ v1.rank ≤ v4.rank := by
  have hne4 : p4 ≠ [] := by
    intro e
    rw [e] at h12
    simp at h12
  have hpos1 : 0 < p1.length := by omega
  have hne1 : p1 ≠ [] := List.length_pos.mp hpos1
  have f4l : (check_password_specification p4).has_lowercase = true := by
    simp only [check_password_specification]
    exact List.any_eq_true.mpr hexl
  have f4u : (check_password_specification p4).has_uppercase = true := by
    simp only [check_password_specification]
    exact List.any_eq_true.mpr hexu
  have f4n : (check_password_specification p4).has_number = true := by
    simp only [check_password_specification]
    exact List.any_eq_true.mpr hexn
  have f4s : (check_password_specification p4).has_special = true := by
    simp only [check_password_specification]
    refine List.any_eq_true.mpr ?_
    obtain ⟨c, hc, hm⟩ := hexs
    exact ⟨c, hc, List.elem_eq_true_of_mem hm⟩
  have f1l : (check_password_specification p1).has_lowercase = true := by
    obtain ⟨c, hc⟩ := List.exists_mem_of_ne_nil p1 hne1
    simp only [check_password_specification]
    exact List.any_eq_true.mpr ⟨c, hc, hall c hc⟩
  have f1u : (check_password_specification p1).has_uppercase = false := by
    simp only [check_password_specification]
    rw [List.any_eq_false]
    intro c hc
    simp [isUpper_eq_false_of_isLower c (hall c hc)]
  have f1n : (check_password_specification p1).has_number = false := by
    simp only [check_password_specification]
    rw [List.any_eq_false]
    intro c hc
    simp [isDigit_eq_false_of_isLower c (hall c hc)]
  have f1s : (check_password_specification p1).has_special = false := by
    simp only [check_password_specification]
    rw [List.any_eq_false]
    intro c hc
    rw [contains_special_eq_false_of_isLower c (hall c hc)]
    simp
  have heff4 : effectiveAlphabet p4 = 83 := by
    simp only [effectiveAlphabet, f4l, f4u, f4n, f4s, if_true]
    rfl
  have heff1 : effectiveAlphabet p1 = 26 := by
    simp only [effectiveAlphabet, f1l, f1u, f1n, f1s, if_true,
      Bool.false_eq_true, if_false]
    rfl
  rw [check_password_strength_eqB, check_password_strength_eqB,
    checkB_eq_verdictOf dict p4 hne4, checkB_eq_verdictOf dict p1 hne1]
  refine ⟨_, _, rfl, rfl, ?_⟩
  have e4 : entPow p4 = 83 ^ (10 * p4.length) := by
    simp only [entPow, heff4]
  have e1 : entPow p1 = 26 ^ (10 * p4.length) := by
    simp only [entPow, heff1, hlen]
  rw [e4, e1]
  rcases Nat.lt_or_ge p4.length 14 with h14 | h14
  · have hcase : p4.length = 12 ∨ p4.length = 13 := by omega
    rcases hcase with h | h <;> rw [h]
    · rw [verdictOf_26_len12]
      exact Nat.zero_le _
    · exact le_trans (verdictOf_26_len13 _) (verdictOf_83_len13 _)
  · rw [verdictOf_83_large _ (Nat.pow_le_pow_right (by norm_num) (by omega)) _]
    exact rank_le_two _

/-- Witness for C8 at the concrete pair: the balanced 13 character password
with all classes versus 13 repetitions of the letter a. -/
theorem check_strength_monotone_in_classes_witness :
    ∃ v4 v1, check_password_strength [] pwWit = Except.ok v4
      ∧ check_password_strength [] pwAllA = Except.ok v1
      ∧ v1.rank ≤ v4.rank :=
  check_strength_monotone_in_classes [] pwWit pwAllA (by decide) (by decide)
    (by decide) (by decide) (by decide) (by decide) (by decide)

/-- C9: for a configuration whose seed phrase is the single character a and
whose length is 12, generate_password returns exactly the letter a repeated
12 times (for every setting of the class and balancing flags, every random
stream, every dictionary): the charset degenerates to the phrase characters
and a present phrase skips the balancer. -/
theorem generate_password_phrase_a (u n s b : Bool) (σ : RngStream)
    (dict : List (List Char)) (fuel k : Nat) :
    (cfgPhraseA u n s b).generate_password σ dict fuel k
      = some (Except.ok (List.replicate 12 'a'), k + 12) := by
  have hlen : (cfgPhraseA u n s b).length = 12 := rfl
  have hcs : (cfgPhraseA u n s b).generate_charset = ['a'] := rfl
  have hph : (cfgPhraseA u n s b).phrase = some ['a'] := rfl
  simp only [PasswordOptions.generate_password, hlen, hcs, hph]
  rw [if_neg (by norm_num : ¬(12 < 10))]
  rw [generate_random_password_singleton σ 12 k]
  simp [Option.isNone]

/-- C10: generate_password is not total: a configuration whose phrase is a
single space yields an empty charset after whitespace removal, and the very
first random draw samples from an empty range, which panics in Rust; the
model returns none rather than an Ok or an explicit error value. -/
theorem generate_password_whitespace_phrase_panics (σ : RngStream)
    (dict : List (List Char)) (fuel k : Nat) :
    cfgWhitespace.generate_password σ dict fuel k = none := by
  have hlen : cfgWhitespace.length = 13 := rfl
  have hcs : cfgWhitespace.generate_charset = [] := rfl
  simp only [PasswordOptions.generate_password, hlen, hcs]
  rw [if_neg (by norm_num : ¬(13 < 10))]
  rfl
